import Mathlib

/-!
Shallow embedding of the Chain Reaction game engine
(`src/engine.ts` and the state-update logic of `src/ChainReactionApp.tsx`).

Coordinates, unit counts and owner ids are TypeScript `number`s used as
integers, so they are modelled as `Int`.  The render-only random field
`pulsePhase` (`Math.random() * Math.PI * 2`) is modelled as an explicit
rational parameter threaded into `createCell` / `createGrid`; no game
logic reads it.
-/

namespace ChainReaction

/-- `export type CellType = 'corner' | 'edge' | 'center'` (engine.ts). -/
inductive CellType where
  | corner
  | edge
  | center
deriving DecidableEq, Repr

/-- `export interface Cell` (engine.ts).  The field `type` keeps the
source name; `pulsePhase` holds the caller-supplied random value. -/
structure Cell where
  r : Int
  c : Int
  orbs : Int
  owner : Int
  capacity : Int
  neighborCount : Int
  type : CellType
  pulsePhase : ℚ
deriving DecidableEq, Repr

/-- `export const GRID_ROWS = 9` (engine.ts). -/
def GRID_ROWS : Int := 9

/-- `export const GRID_COLS = 6` (engine.ts). -/
def GRID_COLS : Int := 6

/-- `createCell(r, c)` (engine.ts).  `pulse` stands for the
`Math.random() * Math.PI * 2` value of the source. -/
def createCell (pulse : ℚ) (r c : Int) : Cell :=
  let neighbors : Int :=
    (if r > 0 then 1 else 0) + (if r < GRID_ROWS - 1 then 1 else 0) +
    (if c > 0 then 1 else 0) + (if c < GRID_COLS - 1 then 1 else 0)
  let capacity := neighbors - 1
  let type : CellType :=
    if neighbors = 2 then .corner else if neighbors = 3 then .edge else .center
  { r := r, c := c, orbs := 0, owner := 0, capacity := capacity,
    neighborCount := neighbors, type := type, pulsePhase := pulse }

/-- `createGrid()` (engine.ts): row-major push of `createCell(r, c)` for
`r < GRID_ROWS`, `c < GRID_COLS`.  `pulses i` is the random value drawn
for the cell pushed at index `i`. -/
def createGrid (pulses : ℕ → ℚ) : List Cell :=
  (List.range 9).flatMap fun r =>
    (List.range 6).map fun c => createCell (pulses (r * 6 + c)) r c

/-- `getCell(grid, r, c)` (engine.ts): bounds check, then
`grid[r * GRID_COLS + c]` (an index past the array end reads
`undefined`, i.e. `none`). -/
def getCell (grid : List Cell) (r c : Int) : Option Cell :=
  if r < 0 ∨ c < 0 ∨ r ≥ GRID_ROWS ∨ c ≥ GRID_COLS then none
  else grid[(r * 6 + c).toNat]?

/-- `validateMove(grid, r, c, player)` (engine.ts). -/
def validateMove (grid : List Cell) (r c : Int) (player : Int) : Bool :=
  match getCell grid r c with
  | none => false
  | some cell => if cell.owner ≠ 0 ∧ cell.owner ≠ player then false else true

/-- Bounds predicate of the `filter` in `getNeighborCoords`:
`nr >= 0 && nc >= 0 && nr < GRID_ROWS && nc < GRID_COLS`. -/
def inBoundsB (x : Int × Int) : Bool :=
  decide (0 ≤ x.1) && decide (0 ≤ x.2) && decide (x.1 < GRID_ROWS) && decide (x.2 < GRID_COLS)

/-- `getNeighborCoords(r, c)` (engine.ts): the four orthogonal offsets
`[[0,1],[0,-1],[1,0],[-1,0]]`, mapped and bounds-filtered. -/
def getNeighborCoords (r c : Int) : List (Int × Int) :=
  ([((0 : Int), (1 : Int)), (0, -1), (1, 0), (-1, 0)].map
      (fun d => (r + d.1, c + d.2))).filter inBoundsB

/-- `getAlivePlayers(grid, activePlayers)` (engine.ts): owners of cells
with `orbs > 0`, then `activePlayers` filtered to that set. -/
def getAlivePlayers (grid : List Cell) (activePlayers : List Int) : List Int :=
  let owners := (grid.filter (fun cell => decide (cell.orbs > 0))).map (·.owner)
  activePlayers.filter (fun p => owners.contains p)

/-- `checkWinner(grid, activePlayers, movesMade)` (engine.ts).
`activePlayers[0]` on an empty roster is `undefined`, i.e. `none`. -/
def checkWinner (grid : List Cell) (activePlayers : List Int) (movesMade : ℕ) :
    Option Int :=
  if movesMade < activePlayers.length then none
  else
    let alive := getAlivePlayers grid activePlayers
    if alive.length = 1 then alive.head?
    else if alive.length = 0 then activePlayers.head?
    else none

/-- JavaScript `Array.prototype.indexOf`: index of the first occurrence,
`-1` when absent (Lean's `List.indexOf` instead returns the length). -/
def tsIndexOf (l : List Int) (x : Int) : Int :=
  if x ∈ l then (l.indexOf x : ℕ) else -1

/-- `getNextPlayer(currentPlayer, activePlayers, grid, movesMade)`
(engine.ts).  Result is `Option` because indexing an empty list in the
source yields `undefined`. -/
def getNextPlayer (currentPlayer : Int) (activePlayers : List Int)
    (grid : List Cell) (movesMade : ℕ) : Option Int :=
  if movesMade < activePlayers.length then
    activePlayers[((tsIndexOf activePlayers currentPlayer + 1).toNat % activePlayers.length)]?
  else
    let alive := getAlivePlayers grid activePlayers
    if alive.length ≤ 1 then some currentPlayer
    else alive[((tsIndexOf alive currentPlayer + 1).toNat % alive.length)]?

/-- In-place mutation of the cell previously fetched via
`getCell(newGrid, r, c)` in the source: since that cell is
`newGrid[r * GRID_COLS + c]`, mutating it is `List.set` at that index. -/
def setCellAt (grid : List Cell) (r c : Int) (x : Cell) : List Cell :=
  grid.set (r * 6 + c).toNat x

/-- `const MAX_EXPLOSIONS_PER_TURN = 500` (ChainReactionApp.tsx). -/
def MAX_EXPLOSIONS_PER_TURN : ℕ := 500

/-- One pass of the neighbor loop of an explosion in `processExplosion`
(ChainReactionApp.tsx): the neighbor at `nrc` (when present) is set to
the exploding owner and gains one orb; if now over capacity and not yet
in the queue it is appended to the queue. -/
def explodeNeighborStep (ownerPlayer : Int) (gq : List Cell × List (Int × Int))
    (nrc : Int × Int) : List Cell × List (Int × Int) :=
  match getCell gq.1 nrc.1 nrc.2 with
  | none => gq
  | some t =>
    let t1 := { t with owner := ownerPlayer, orbs := t.orbs + 1 }
    let g2 := setCellAt gq.1 nrc.1 nrc.2 t1
    let q2 := if t1.orbs > t1.capacity ∧ ¬ gq.2.contains nrc
              then gq.2 ++ [nrc] else gq.2
    (g2, q2)

/-- The body of one explosion in `processExplosion`
(ChainReactionApp.tsx): `cell` is the unstable cell fetched at `(r, c)`,
`queue` is the explosion queue after the `shift()`.  The source cell
loses `capacity + 1` orbs (owner cleared when the result is exactly 0),
then every in-bounds orthogonal neighbor is processed by
`explodeNeighborStep`.  Returns the new grid and the new queue. -/
def explodeCell (grid : List Cell) (queue : List (Int × Int)) (r c : Int)
    (cell : Cell) : List Cell × List (Int × Int) :=
  let ownerPlayer := cell.owner
  let newOrbs := cell.orbs - (cell.capacity + 1)
  let g1 := setCellAt grid r c
    { cell with orbs := newOrbs, owner := if newOrbs = 0 then 0 else cell.owner }
  (getNeighborCoords r c).foldl (explodeNeighborStep ownerPlayer) (g1, queue)

/-- The explosion-processing loop of `processExplosion`
(ChainReactionApp.tsx), with `fuel = MAX_EXPLOSIONS_PER_TURN − count`:
each dequeue increments the counter, the counter hitting the limit
clears the queue and returns the grid as it stands, an empty queue ends
the chain, and a dequeued cell that is missing or no longer over
capacity is skipped.  The second component is the ordered sequence of
coordinates actually exploded. -/
def runCascadeAux : ℕ → List Cell → List (Int × Int) → List Cell × List (Int × Int)
  | 0, g, _ => (g, [])
  | _ + 1, g, [] => (g, [])
  | fuel + 1, g, (r, c) :: rest =>
    match getCell g r c with
    | none => runCascadeAux fuel g rest
    | some cell =>
      if cell.orbs ≤ cell.capacity then runCascadeAux fuel g rest
      else
        let gq := explodeCell g rest r c cell
        let res := runCascadeAux fuel gq.1 gq.2
        (res.1, (r, c) :: res.2)

/-- A full cascade for one turn: the explosion counter starts at 0. -/
def runCascade (g : List Cell) (q : List (Int × Int)) :
    List Cell × List (Int × Int) :=
  runCascadeAux MAX_EXPLOSIONS_PER_TURN g q

/-- The grid part of `executeMove` (ChainReactionApp.tsx) followed by
full cascade resolution: reject when `validateMove` fails (state is left
untouched), otherwise place one orb for `player`, and when the placed
cell exceeds capacity queue it and run the explosion loop.  `none`
models rejection with no state change. -/
def executeMoveResolve (grid : List Cell) (r c player : Int) :
    Option (List Cell × List (Int × Int)) :=
  if validateMove grid r c player then
    match getCell grid r c with
    | none => none
    | some cell =>
      let g1 := setCellAt grid r c
        { cell with owner := player, orbs := cell.orbs + 1 }
      if cell.orbs + 1 > cell.capacity then some (runCascade g1 [(r, c)])
      else some (g1, [])
  else none

/-- The valid-move test of `aiFindBestMove`:
`cell.owner === 0 || cell.owner === player`.  This is also exactly the
ownership condition of `validateMove`. -/
def legalB (player : Int) (cell : Cell) : Bool :=
  decide (cell.owner = 0 ∨ cell.owner = player)

/-- `aiScoreMove(grid, cell, player)` (engine.ts); `noise` stands for
the `Math.random() * 3` variety term. -/
def aiScoreMove (grid : List Cell) (cell : Cell) (player : Int) (noise : ℚ) : ℚ :=
  let s1 : ℚ := if cell.owner = player then 10 else 0
  let s2 := if cell.orbs = cell.capacity then s1 + 25
            else if cell.orbs = cell.capacity - 1 then s1 + 15 else s1
  let s3 := if cell.type = .corner then s2 + 8
            else if cell.type = .edge then s2 + 4 else s2
  let s4 := (getNeighborCoords cell.r cell.c).foldl
    (fun acc nrc =>
      match getCell grid nrc.1 nrc.2 with
      | none => acc
      | some neighbor =>
        let a1 := if neighbor.owner ≠ 0 ∧ neighbor.owner ≠ player ∧ neighbor.orbs > 0
                  then (if cell.orbs = cell.capacity then acc + 5 + 10 else acc + 5)
                  else acc
        if neighbor.owner ≠ 0 ∧ neighbor.owner ≠ player ∧
            neighbor.orbs = neighbor.capacity
        then a1 - 8 else a1)
    s3
  s4 + noise

/-- Stable insertion of a scored move into a descending-score list;
together with `sortDesc` this models the stable comparator sort
`scoredMoves.sort((a, b) => b.score - a.score)` of `aiFindBestMove`. -/
def insertDesc (x : Cell × ℚ) : List (Cell × ℚ) → List (Cell × ℚ)
  | [] => [x]
  | y :: ys => if x.2 > y.2 then x :: y :: ys else y :: insertDesc x ys

/-- Stable descending sort by score (see `insertDesc`). -/
def sortDesc : List (Cell × ℚ) → List (Cell × ℚ)
  | [] => []
  | x :: xs => insertDesc x (sortDesc xs)

/-- `aiFindBestMove(grid, player)` (engine.ts).  `noise i` is the random
score term drawn for the `i`-th valid move; `pick` models the
`Math.floor(Math.random() * topMoves.length)` draw (reduced modulo the
number of top moves). -/
def aiFindBestMove (grid : List Cell) (player : Int) (noise : ℕ → ℚ)
    (pick : ℕ) : Option (Int × Int) :=
  let validMoves := grid.filter (legalB player)
  if validMoves.length = 0 then none
  else
    let scoredMoves := validMoves.enum.map
      (fun ic => (ic.2, aiScoreMove grid ic.2 player (noise ic.1)))
    let sorted := sortDesc scoredMoves
    let topMoves := sorted.take (min 3 sorted.length)
    match topMoves[pick % topMoves.length]? with
    | none => none
    | some chosen => some (chosen.1.r, chosen.1.c)

/-- A grid is well formed when it has one cell per coordinate of the
9×6 board, stored row-major, and each cell's position-derived fields
(`r`, `c`, `capacity`, `neighborCount`, `type`) agree with
`createCell` at its index.  `createGrid` produces exactly this shape and
no engine operation writes those fields. -/
def WellFormed (grid : List Cell) : Prop :=
  grid.length = 54 ∧
  ∀ i, (h : i < grid.length) →
    grid[i].r = (i / 6 : ℕ) ∧ grid[i].c = (i % 6 : ℕ) ∧
    grid[i].capacity = (createCell 0 (i / 6 : ℕ) (i % 6 : ℕ)).capacity ∧
    grid[i].neighborCount = (createCell 0 (i / 6 : ℕ) (i % 6 : ℕ)).neighborCount ∧
    grid[i].type = (createCell 0 (i / 6 : ℕ) (i % 6 : ℕ)).type

/-- The ownership invariant: unit counts are never negative and an
owned (non-zero-owner) cell always holds at least one unit. -/
def Inv (grid : List Cell) : Prop :=
  ∀ cell ∈ grid, 0 ≤ cell.orbs ∧ (cell.owner ≠ 0 → 0 < cell.orbs)

/-- Total number of orbs on the grid. -/
def totalOrbs (grid : List Cell) : Int :=
  (grid.map (·.orbs)).sum

/-- Roster members that own at least one cell holding units, written
directly from the spec's phrase "owns a cell with units > 0" (used to
state the winner/turn claims; `getAlivePlayers` is proved equal to it). -/
def aliveOwners (grid : List Cell) (roster : List Int) : List Int :=
  roster.filter (fun p => grid.any (fun cell => decide (0 < cell.orbs ∧ cell.owner = p)))

/-! ### Concrete fixtures used by witness theorems -/

/-- Degenerate random stream: every draw is 0. -/
def pulses0 : ℕ → ℚ := fun _ => 0

/-- The freshly created 9×6 grid (all draws 0). -/
def grid0 : List Cell := createGrid pulses0

/-- A corner cell holding 2 orbs for player 1: over its capacity 1. -/
def cellW : Cell :=
  { r := 0, c := 0, orbs := 2, owner := 1, capacity := 1,
    neighborCount := 2, type := .corner, pulsePhase := 0 }

/-- `grid0` with the over-capacity corner `cellW` written at (0, 0). -/
def gridW : List Cell := setCellAt grid0 0 0 cellW

/-- A corner cell at (8, 5) holding 1 orb for player 2. -/
def cellW2 : Cell :=
  { r := 8, c := 5, orbs := 1, owner := 2, capacity := 1,
    neighborCount := 2, type := .corner, pulsePhase := 0 }

/-- `gridW` with `cellW2` written at (8, 5): players 1 and 2 both own
units. -/
def gridW2 : List Cell := setCellAt gridW 8 5 cellW2

/-- Gives every cell except the corner (0, 0) to player 1. -/
def fillOwn (cell : Cell) : Cell :=
  if cell.r = 0 ∧ cell.c = 0 then cell else { cell with owner := 1, orbs := 1 }

/-- A grid fully owned by player 1 except for the free corner (0, 0):
for player 2 it has exactly one legal placement. -/
def gridFull : List Cell := grid0.map fillOwn

/-- The single cell of `gridFull` that player 2 may play: the untouched
corner (0, 0). -/
def cellFree : Cell := createCell 0 0 0

/-! ### Basic lemmas about the grid representation -/

theorem getCell_some_iff {grid : List Cell} {r c : Int} {cell : Cell} :
    getCell grid r c = some cell ↔
      (0 ≤ r ∧ 0 ≤ c ∧ r < 9 ∧ c < 6) ∧ grid[(r * 6 + c).toNat]? = some cell := by
  unfold getCell GRID_ROWS GRID_COLS
  split
  · rename_i h
    constructor
    · intro hcontra
      exact Option.noConfusion hcontra
    · rintro ⟨hb, -⟩
      exact ((by omega : False)).elim
  · rename_i h
    simp only [iff_and_self]
    intro _
    omega

theorem getCell_eq_getElem {grid : List Cell} {r c : Int}
    (h54 : grid.length = 54) (hb : 0 ≤ r ∧ 0 ≤ c ∧ r < 9 ∧ c < 6) :
    ∃ h : (r * 6 + c).toNat < grid.length,
      getCell grid r c = some grid[(r * 6 + c).toNat] := by
  have hlt : (r * 6 + c).toNat < grid.length := by omega
  refine ⟨hlt, ?_⟩
  rw [getCell_some_iff]
  exact ⟨hb, List.getElem?_eq_getElem hlt⟩

theorem getCell_bounds {grid : List Cell} {r c : Int} {cell : Cell}
    (h : getCell grid r c = some cell) : 0 ≤ r ∧ 0 ≤ c ∧ r < 9 ∧ c < 6 :=
  (getCell_some_iff.mp h).1

theorem length_setCellAt (grid : List Cell) (r c : Int) (x : Cell) :
    (setCellAt grid r c x).length = grid.length :=
  List.length_set ..

theorem getCell_setCellAt {grid : List Cell} {r c : Int} (x : Cell)
    (h54 : grid.length = 54) (hb : 0 ≤ r ∧ 0 ≤ c ∧ r < 9 ∧ c < 6) (r' c' : Int) :
    getCell (setCellAt grid r c x) r' c' =
      if r' = r ∧ c' = c then some x else getCell grid r' c' := by
  by_cases hb' : 0 ≤ r' ∧ 0 ≤ c' ∧ r' < 9 ∧ c' < 6
  · by_cases heq : r' = r ∧ c' = c
    · rw [if_pos heq, getCell_some_iff]
      refine ⟨hb', ?_⟩
      have : (r' * 6 + c').toNat = (r * 6 + c).toNat := by omega
      rw [setCellAt, this]
      exact List.getElem?_set_eq (by omega)
    · rw [if_neg heq]
      have hne : (r * 6 + c).toNat ≠ (r' * 6 + c').toNat := by omega
      unfold getCell setCellAt GRID_ROWS GRID_COLS
      split
      · rfl
      · exact List.getElem?_set_ne hne
    -- out-of-bounds coordinate: both sides are none
  · have h1 : getCell (setCellAt grid r c x) r' c' = none := by
      unfold getCell GRID_ROWS GRID_COLS
      rw [if_pos (by omega)]
    have h2 : getCell grid r' c' = none := by
      unfold getCell GRID_ROWS GRID_COLS
      rw [if_pos (by omega)]
    rw [h1, h2, if_neg]
    intro heq
    exact hb' (by obtain ⟨h1, h2⟩ := heq; subst h1; subst h2; exact hb)

/-! ### Lemmas about `getNeighborCoords` -/

theorem getNeighborCoords_eq_filter (r c : Int) :
    getNeighborCoords r c =
      [(r, c + 1), (r, c - 1), (r + 1, c), (r - 1, c)].filter inBoundsB := by
  simp [getNeighborCoords, sub_eq_add_neg]

theorem inBoundsB_iff (x : Int × Int) :
    inBoundsB x = true ↔ 0 ≤ x.1 ∧ 0 ≤ x.2 ∧ x.1 < 9 ∧ x.2 < 6 := by
  simp [inBoundsB, GRID_ROWS, GRID_COLS, and_assoc]

theorem mem_getNeighborCoords_bounds {r c : Int} {x : Int × Int}
    (h : x ∈ getNeighborCoords r c) : 0 ≤ x.1 ∧ 0 ≤ x.2 ∧ x.1 < 9 ∧ x.2 < 6 := by
  rw [getNeighborCoords_eq_filter] at h
  exact (inBoundsB_iff x).mp (List.mem_filter.mp h).2

theorem getNeighborCoords_nodup (r c : Int) : (getNeighborCoords r c).Nodup := by
  rw [getNeighborCoords_eq_filter]
  refine List.Nodup.filter _ ?_
  simp only [List.nodup_cons, List.mem_cons, List.mem_singleton, List.not_mem_nil,
    not_false_iff, List.nodup_nil, and_true, Prod.mk.injEq, not_or]
  refine ⟨⟨?_, ?_, ?_⟩, ⟨?_, ?_⟩, ?_⟩ <;> intro h <;> omega

theorem self_not_mem_getNeighborCoords (r c : Int) :
    (r, c) ∉ getNeighborCoords r c := by
  rw [getNeighborCoords_eq_filter]
  intro h
  have := (List.mem_filter.mp h).1
  simp only [List.mem_cons, List.mem_singleton, List.not_mem_nil, or_false,
    Prod.mk.injEq] at this
  omega

/-! ### Lemmas about `createGrid` -/

theorem createGrid_length (pulses : ℕ → ℚ) : (createGrid pulses).length = 54 := rfl

theorem createGrid_getElem? (pulses : ℕ → ℚ) (i : ℕ) (h : i < 54) :
    (createGrid pulses)[i]? = some (createCell (pulses i) (i / 6 : ℕ) (i % 6 : ℕ)) := by
  interval_cases i <;> rfl

theorem createGrid_wellFormed (pulses : ℕ → ℚ) : WellFormed (createGrid pulses) := by
  refine ⟨createGrid_length pulses, ?_⟩
  intro i h
  have h54 : i < 54 := by
    rw [createGrid_length] at h
    exact h
  have hq := createGrid_getElem? pulses i h54
  rw [List.getElem?_eq_getElem h] at hq
  have hg : (createGrid pulses)[i] = createCell (pulses i) (i / 6 : ℕ) (i % 6 : ℕ) :=
    Option.some.inj hq
  rw [hg]
  exact ⟨rfl, rfl, rfl, rfl, rfl⟩

theorem createGrid_mem {pulses : ℕ → ℚ} {cell : Cell}
    (h : cell ∈ createGrid pulses) : cell.orbs = 0 ∧ cell.owner = 0 := by
  rw [createGrid, List.mem_flatMap] at h
  obtain ⟨r, _, hm⟩ := h
  rw [List.mem_map] at hm
  obtain ⟨c, _, rfl⟩ := hm
  exact ⟨rfl, rfl⟩

/-- For a well-formed grid, `getCell` at a cell's own coordinates
returns that very cell. -/
theorem getCell_of_mem {grid : List Cell} {cell : Cell}
    (hwf : WellFormed grid) (hm : cell ∈ grid) :
    getCell grid cell.r cell.c = some cell := by
  obtain ⟨h54, hfields⟩ := hwf
  obtain ⟨i, hi, rfl⟩ := List.getElem_of_mem hm
  obtain ⟨hr, hc, -⟩ := hfields i hi
  have hi54 : i < 54 := by omega
  have hb : 0 ≤ grid[i].r ∧ 0 ≤ grid[i].c ∧ grid[i].r < 9 ∧ grid[i].c < 6 := by
    rw [hr, hc]
    omega
  rw [getCell_some_iff]
  refine ⟨hb, ?_⟩
  have hidx : (grid[i].r * 6 + grid[i].c).toNat = i := by
    rw [hr, hc]
    omega
  rw [hidx]
  exact List.getElem?_eq_getElem hi

/-- For every in-bounds coordinate the `capacity` computed by
`createCell` is one less than the number of coordinates returned by
`getNeighborCoords`. -/
theorem createCell_capacity_neighbors (r c : Int)
    (hr0 : 0 ≤ r) (hr : r < 9) (hc0 : 0 ≤ c) (hc : c < 6) :
    ((getNeighborCoords r c).length : Int) = (createCell 0 r c).capacity + 1 := by
  interval_cases r <;> interval_cases c <;> decide

/-- A well-formed grid stays well formed when a cell is overwritten by a
cell with the same position-derived fields. -/
theorem wellFormed_setCellAt {grid : List Cell} {r c : Int} {x old : Cell}
    (hwf : WellFormed grid) (hold : getCell grid r c = some old)
    (hr : x.r = old.r) (hc : x.c = old.c) (hcap : x.capacity = old.capacity)
    (hn : x.neighborCount = old.neighborCount) (ht : x.type = old.type) :
    WellFormed (setCellAt grid r c x) := by
  obtain ⟨h54, hfields⟩ := hwf
  obtain ⟨hb, hsome⟩ := getCell_some_iff.mp hold
  refine ⟨by rw [length_setCellAt]; exact h54, ?_⟩
  intro i h
  rw [length_setCellAt] at h
  have hgi : (setCellAt grid r c x)[i] =
      if (r * 6 + c).toNat = i then x else grid[i] := List.getElem_set _
  by_cases hidx : (r * 6 + c).toNat = i
  · rw [hgi, if_pos hidx]
    obtain ⟨hlt, hold'⟩ := List.getElem?_eq_some.mp hsome
    have : old = grid[i] := by
      subst hidx
      exact hold'.symm
    subst this
    have := hfields i h
    rw [hr, hc, hcap, hn, ht]
    exact this
  · rw [hgi, if_neg hidx]
    exact hfields i h

/-- An element fetched by `getCell` is a member of the grid list. -/
theorem mem_of_getCell {grid : List Cell} {r c : Int} {cell : Cell}
    (h : getCell grid r c = some cell) : cell ∈ grid := by
  obtain ⟨-, hsome⟩ := getCell_some_iff.mp h
  obtain ⟨hlt, hg⟩ := List.getElem?_eq_some.mp hsome
  rw [← hg]
  exact List.getElem_mem hlt

/-- `getAlivePlayers` computes exactly the spec-side `aliveOwners`. -/
theorem getAlivePlayers_eq_aliveOwners (grid : List Cell) (roster : List Int) :
    getAlivePlayers grid roster = aliveOwners grid roster := by
  unfold getAlivePlayers aliveOwners
  refine List.filter_congr ?_
  intro p _
  rw [Bool.eq_iff_iff, List.elem_iff, List.any_eq_true]
  simp only [List.mem_map, List.mem_filter, decide_eq_true_eq]
  constructor
  · rintro ⟨cell, ⟨hm, ho⟩, rfl⟩
    exact ⟨cell, hm, by simpa using ho, rfl⟩
  · rintro ⟨cell, hm, horbs, howner⟩
    exact ⟨cell, ⟨hm, by simpa using horbs⟩, howner⟩

/-- `tsIndexOf` of a member of a duplicate-free list is its index. -/
theorem tsIndexOf_of_getElem {l : List Int} {i : ℕ} (h : i < l.length)
    (hnd : l.Nodup) (x : Int) (hx : l[i] = x) : tsIndexOf l x = (i : ℕ) := by
  subst hx
  unfold tsIndexOf
  rw [if_pos (List.getElem_mem h)]
  have := List.get_indexOf hnd ⟨i, h⟩
  simp only [List.get_eq_getElem] at this
  rw [this]

/-! ### C6: capacity derivation -/

/-- **C6.**  For every in-bounds coordinate of the 9×6 grid the created
cell's capacity is its in-bounds orthogonal neighbor count minus 1 and
the size of `getNeighborCoords` minus 1; 2-neighbor cells are corners
with capacity 1, 3-neighbor cells edges with capacity 2, 4-neighbor
cells interior with capacity 3; and the created grid holds exactly 4
corner cells. -/
theorem createCell_capacity_correct (pulse : ℚ) (pulses : ℕ → ℚ) (r c : Int)
    (hr0 : 0 ≤ r) (hr : r < 9) (hc0 : 0 ≤ c) (hc : c < 6) :
    ((createCell pulse r c).capacity = (createCell pulse r c).neighborCount - 1 ∧
      (createCell pulse r c).capacity = ((getNeighborCoords r c).length : Int) - 1 ∧
      ((createCell pulse r c).neighborCount = 2 →
        (createCell pulse r c).capacity = 1 ∧ (createCell pulse r c).type = .corner) ∧
      ((createCell pulse r c).neighborCount = 3 →
        (createCell pulse r c).capacity = 2 ∧ (createCell pulse r c).type = .edge) ∧
      ((createCell pulse r c).neighborCount = 4 →
        (createCell pulse r c).capacity = 3 ∧ (createCell pulse r c).type = .center)) ∧
    ((createGrid pulses).filter (fun cell => cell.type == CellType.corner)).length = 4 := by
  constructor
  · have hlen := createCell_capacity_neighbors r c hr0 hr hc0 hc
    have hcap : (createCell pulse r c).capacity = (createCell 0 r c).capacity := rfl
    have hn : (createCell pulse r c).neighborCount = (createCell 0 r c).neighborCount := rfl
    have ht : (createCell pulse r c).type = (createCell 0 r c).type := rfl
    rw [hcap, hn, ht]
    refine ⟨rfl, by omega, ?_, ?_, ?_⟩ <;>
      · interval_cases r <;> interval_cases c <;> decide
  · rfl

/-- Witness for `createCell_capacity_correct` at the corner (0, 0). -/
theorem createCell_capacity_correct_witness :
    ((createCell 0 0 0).capacity = (createCell 0 0 0).neighborCount - 1 ∧
      (createCell 0 0 0).capacity = ((getNeighborCoords 0 0).length : Int) - 1 ∧
      ((createCell 0 0 0).neighborCount = 2 →
        (createCell 0 0 0).capacity = 1 ∧ (createCell 0 0 0).type = .corner) ∧
      ((createCell 0 0 0).neighborCount = 3 →
        (createCell 0 0 0).capacity = 2 ∧ (createCell 0 0 0).type = .edge) ∧
      ((createCell 0 0 0).neighborCount = 4 →
        (createCell 0 0 0).capacity = 3 ∧ (createCell 0 0 0).type = .center)) ∧
    ((createGrid pulses0).filter (fun cell => cell.type == CellType.corner)).length = 4 :=
  createCell_capacity_correct 0 pulses0 0 0 (by decide) (by decide) (by decide) (by decide)

/-! ### C3: winner detection -/

/-- **C3.**  `checkWinner` returns `none` whenever fewer moves than
roster members have been made, regardless of the grid.  Once every
roster member has moved: if exactly one roster member owns a cell with
units, that member wins; if none does, the first roster entry is
returned as a fallback; otherwise there is no winner yet. -/
theorem checkWinner_correct (grid : List Cell) (roster : List Int) (movesMade : ℕ) :
    (movesMade < roster.length → checkWinner grid roster movesMade = none) ∧
    (roster.length ≤ movesMade →
      (∀ w, aliveOwners grid roster = [w] →
        checkWinner grid roster movesMade = some w) ∧
      (aliveOwners grid roster = [] →
        checkWinner grid roster movesMade = roster.head?) ∧
      (2 ≤ (aliveOwners grid roster).length →
        checkWinner grid roster movesMade = none)) := by
  unfold checkWinner
  rw [getAlivePlayers_eq_aliveOwners]
  constructor
  · intro h
    rw [if_pos h]
  · intro h
    rw [if_neg (by omega)]
    refine ⟨?_, ?_, ?_⟩
    · intro w hw
      rw [hw]
      simp
    · intro hw
      rw [hw]
      simp
    · intro h2
      rw [if_neg (by omega), if_neg (by omega)]

/-- Witness for `checkWinner_correct`: first-round immunity on a grid
where player 1 alone owns units, and the steady-state unique-winner
case on the same grid. -/
theorem checkWinner_correct_witness :
    checkWinner gridW [1, 2] 1 = none ∧ checkWinner gridW [1, 2] 2 = some 1 := by
  constructor
  · exact (checkWinner_correct gridW [1, 2] 1).1 (by decide)
  · exact ((checkWinner_correct gridW [1, 2] 2).2 (by decide)).1 1 (by decide)

/-! ### C4: next-actor selection -/

/-- **C4.**  During the first round (`movesMade < roster.length`)
`getNextPlayer` advances round-robin over the full roster; afterwards,
with at least two roster members owning units, it advances round-robin
over the alive sublist (in roster order); with at most the mover alive
it returns the current actor unchanged. -/
theorem getNextPlayer_correct (cur : Int) (roster : List Int) (grid : List Cell)
    (movesMade : ℕ) :
    (∀ i, (h : i < roster.length) → movesMade < roster.length → roster.Nodup →
      roster[i] = cur →
      getNextPlayer cur roster grid movesMade = roster[(i + 1) % roster.length]?) ∧
    (roster.length ≤ movesMade → (aliveOwners grid roster).length = 1 →
      getNextPlayer cur roster grid movesMade = some cur) ∧
    (∀ i, (h : i < (aliveOwners grid roster).length) → roster.length ≤ movesMade →
      roster.Nodup → 2 ≤ (aliveOwners grid roster).length →
      (aliveOwners grid roster)[i] = cur →
      getNextPlayer cur roster grid movesMade =
        (aliveOwners grid roster)[(i + 1) % (aliveOwners grid roster).length]?) := by
  refine ⟨?_, ?_, ?_⟩
  · intro i h hmove hnd hcur
    unfold getNextPlayer
    rw [if_pos hmove, tsIndexOf_of_getElem h hnd cur hcur]
    have hcast : ((i : Int) + 1).toNat = i + 1 := by omega
    rw [hcast]
  · intro hmove halive
    unfold getNextPlayer
    rw [if_neg (by omega), getAlivePlayers_eq_aliveOwners, if_pos (by omega)]
  · intro i h hmove hnd h2 hcur
    unfold getNextPlayer
    rw [if_neg (by omega), getAlivePlayers_eq_aliveOwners, if_neg (by omega),
      tsIndexOf_of_getElem h (hnd.filter _) cur hcur]
    have hcast : ((i : Int) + 1).toNat = i + 1 := by omega
    rw [hcast]

/-- Witness for `getNextPlayer_correct`: first-round rotation 1 → 2 on
a three-competitor roster, the stay-put case when only player 1 is
alive, and steady-state rotation over the alive pair on a grid where
players 1 and 2 both own units. -/
theorem getNextPlayer_correct_witness :
    getNextPlayer 1 [1, 2, 3] gridW 0 = some 2 ∧
    getNextPlayer 2 [1, 2] gridW 5 = some 2 ∧
    getNextPlayer 1 [1, 2, 3] gridW2 5 = some 2 := by
  refine ⟨?_, ?_, ?_⟩
  · exact (getNextPlayer_correct 1 [1, 2, 3] gridW 0).1 0 (by decide) (by decide)
      (by decide) (by decide)
  · exact (getNextPlayer_correct 2 [1, 2] gridW 5).2.1 (by decide) (by decide)
  · exact (getNextPlayer_correct 1 [1, 2, 3] gridW2 5).2.2 0 (by decide) (by decide)
      (by decide) (by decide) (by decide)

/-! ### C7: placement validation -/

/-- **C7.**  `validateMove` accepts exactly the in-bounds coordinates
whose cell is unclaimed or already owned by the mover, and a rejected
placement leaves the game state untouched (`executeMoveResolve`
returns `none` without modifying the grid). -/
theorem validateMove_correct (grid : List Cell) (r c player : Int) :
    (validateMove grid r c player = true ↔
      (0 ≤ r ∧ r < 9 ∧ 0 ≤ c ∧ c < 6) ∧
      ∃ cell, getCell grid r c = some cell ∧
        (cell.owner = 0 ∨ cell.owner = player)) ∧
    (validateMove grid r c player = false →
      executeMoveResolve grid r c player = none) := by
  constructor
  · constructor
    · intro hv
      unfold validateMove at hv
      cases hcell : getCell grid r c with
      | none =>
        rw [hcell] at hv
        exact Bool.noConfusion hv
      | some cell =>
        rw [hcell] at hv
        have hv' : (if cell.owner ≠ 0 ∧ cell.owner ≠ player then false else true)
            = true := hv
        have hb := getCell_bounds hcell
        refine ⟨by omega, cell, rfl, ?_⟩
        by_contra hno
        push_neg at hno
        rw [if_pos ⟨hno.1, hno.2⟩] at hv'
        exact Bool.noConfusion hv'
    · rintro ⟨hb, cell, hsome, howner⟩
      unfold validateMove
      rw [hsome]
      show (if cell.owner ≠ 0 ∧ cell.owner ≠ player then false else true) = true
      rw [if_neg]
      rintro ⟨h1, h2⟩
      rcases howner with h | h
      · exact h1 h
      · exact h2 h
  · intro hv
    unfold executeMoveResolve
    simp only [hv, Bool.false_eq_true, if_false]

/-- Witness for `validateMove_correct`: player 2 placing on the cell
owned by player 1 at (0, 0) is rejected and resolves to no new state. -/
theorem validateMove_correct_witness :
    validateMove gridW 0 0 2 = false ∧ executeMoveResolve gridW 0 0 2 = none :=
  ⟨by decide, (validateMove_correct gridW 0 0 2).2 (by decide)⟩

/-! ### The effect of one explosion on the grid -/

theorem totalOrbs_set (g : List Cell) (i : ℕ) (x : Cell) (h : i < g.length) :
    totalOrbs (g.set i x) = totalOrbs g - g[i].orbs + x.orbs := by
  induction g generalizing i with
  | nil => simp at h
  | cons a as ih =>
    cases i with
    | zero =>
      simp only [List.set_cons_zero, totalOrbs, List.map_cons, List.sum_cons,
        List.getElem_cons_zero]
      ring
    | succ n =>
      simp only [List.set_cons_succ, totalOrbs, List.map_cons, List.sum_cons,
        List.getElem_cons_succ]
      have hn : n < as.length := by simpa using h
      have := ih n hn
      simp only [totalOrbs] at this
      rw [this]
      ring

/-- Folding the neighbor-update step over a duplicate-free list of
in-bounds coordinates updates exactly those cells (owner := `p`, one
extra orb each), leaves every other coordinate unchanged, keeps the
length, and adds one orb per processed coordinate. -/
theorem foldl_explodeNeighborStep_spec (p : Int) (L : List (Int × Int)) :
    ∀ (g : List Cell) (q : List (Int × Int)),
      g.length = 54 → L.Nodup →
      (∀ x ∈ L, 0 ≤ x.1 ∧ 0 ≤ x.2 ∧ x.1 < 9 ∧ x.2 < 6) →
      (L.foldl (explodeNeighborStep p) (g, q)).1.length = 54 ∧
      (∀ x ∈ L, ∃ t, getCell g x.1 x.2 = some t ∧
        getCell (L.foldl (explodeNeighborStep p) (g, q)).1 x.1 x.2 =
          some { t with owner := p, orbs := t.orbs + 1 }) ∧
      (∀ y : Int × Int, y ∉ L →
        getCell (L.foldl (explodeNeighborStep p) (g, q)).1 y.1 y.2 =
          getCell g y.1 y.2) ∧
      totalOrbs (L.foldl (explodeNeighborStep p) (g, q)).1 =
        totalOrbs g + L.length := by
  induction L with
  | nil =>
    intro g q h54 _ _
    refine ⟨h54, by simp, by simp, by simp⟩
  | cons x xs ih =>
    intro g q h54 hnd hb
    obtain ⟨hx_not_mem, hnd_xs⟩ := List.nodup_cons.mp hnd
    have hbx := hb x (List.mem_cons_self x xs)
    obtain ⟨hlt, hget0⟩ := getCell_eq_getElem h54 hbx
    obtain ⟨t, hget⟩ : ∃ t, getCell g x.1 x.2 = some t := ⟨_, hget0⟩
    have ht_idx : g[(x.1 * 6 + x.2).toNat] = t := by
      rw [hget0] at hget
      exact Option.some.inj hget
    have hstep : explodeNeighborStep p (g, q) x =
        (setCellAt g x.1 x.2 { t with owner := p, orbs := t.orbs + 1 },
         if t.orbs + 1 > t.capacity ∧ ¬ q.contains x then q ++ [x] else q) := by
      simp only [explodeNeighborStep, hget]
    have hg2len : (setCellAt g x.1 x.2
        { t with owner := p, orbs := t.orbs + 1 }).length = 54 := by
      rw [length_setCellAt]
      exact h54
    have IH := ih _ (if t.orbs + 1 > t.capacity ∧ ¬ q.contains x then q ++ [x] else q)
      hg2len hnd_xs (fun y hy => hb y (List.mem_cons_of_mem x hy))
    rw [List.foldl_cons, hstep]
    have hset := @getCell_setCellAt g x.1 x.2
      ({ t with owner := p, orbs := t.orbs + 1 }) h54 hbx
    refine ⟨IH.1, ?_, ?_, ?_⟩
    · intro y hy
      rcases List.mem_cons.mp hy with rfl | hy_xs
      · refine ⟨t, hget, ?_⟩
        rw [IH.2.2.1 y hx_not_mem, hset y.1 y.2, if_pos ⟨rfl, rfl⟩]
      · obtain ⟨u, hu_g2, hu_final⟩ := IH.2.1 y hy_xs
        refine ⟨u, ?_, hu_final⟩
        rw [hset y.1 y.2, if_neg] at hu_g2
        · exact hu_g2
        · rintro ⟨h1, h2⟩
          exact hx_not_mem (by rwa [show x = y from Prod.ext h1.symm h2.symm])
    · intro y hy
      have hy_ne : ¬(y.1 = x.1 ∧ y.2 = x.2) := by
        rintro ⟨h1, h2⟩
        exact hy (by rw [show y = x from Prod.ext h1 h2]; exact List.mem_cons_self x xs)
      rw [IH.2.2.1 y (fun hm => hy (List.mem_cons_of_mem x hm)), hset y.1 y.2,
        if_neg hy_ne]
    · rw [IH.2.2.2, setCellAt, totalOrbs_set g _ _ hlt, ht_idx]
      simp only [List.length_cons]
      push_cast
      ring

/-- Full characterisation of a single explosion step (`explodeCell`):
the source cell loses `capacity + 1` orbs and is unclaimed exactly when
it hits 0; every in-bounds orthogonal neighbor takes the exploding
owner and gains one orb; everything else is untouched; and the total
orb count changes by the neighbor count minus `capacity + 1`. -/
theorem explodeCell_spec {grid : List Cell} {q : List (Int × Int)} {r c : Int}
    {cell : Cell} (h54 : grid.length = 54) (hcell : getCell grid r c = some cell) :
    (explodeCell grid q r c cell).1.length = 54 ∧
    getCell (explodeCell grid q r c cell).1 r c =
      some { cell with
               orbs := cell.orbs - (cell.capacity + 1),
               owner := if cell.orbs - (cell.capacity + 1) = 0 then 0 else cell.owner } ∧
    (∀ x ∈ getNeighborCoords r c, ∃ t, getCell grid x.1 x.2 = some t ∧
      getCell (explodeCell grid q r c cell).1 x.1 x.2 =
        some { t with owner := cell.owner, orbs := t.orbs + 1 }) ∧
    (∀ y : Int × Int, y ∉ getNeighborCoords r c → y ≠ (r, c) →
      getCell (explodeCell grid q r c cell).1 y.1 y.2 = getCell grid y.1 y.2) ∧
    totalOrbs (explodeCell grid q r c cell).1 =
      totalOrbs grid - (cell.capacity + 1) + (getNeighborCoords r c).length := by
  have hb := getCell_bounds hcell
  have hb' : 0 ≤ r ∧ 0 ≤ c ∧ r < 9 ∧ c < 6 := by omega
  obtain ⟨hidx, hget⟩ := getCell_eq_getElem h54 hb'
  have hcell_eq : grid[(r * 6 + c).toNat] = cell := by
    rw [hget] at hcell
    exact Option.some.inj hcell
  set src : Cell := { cell with
    orbs := cell.orbs - (cell.capacity + 1),
    owner := if cell.orbs - (cell.capacity + 1) = 0 then 0 else cell.owner } with hsrc
  have hunfold : explodeCell grid q r c cell =
      (getNeighborCoords r c).foldl (explodeNeighborStep cell.owner)
        (setCellAt grid r c src, q) := rfl
  have hg1len : (setCellAt grid r c src).length = 54 := by
    rw [length_setCellAt]
    exact h54
  have hset := @getCell_setCellAt grid r c src h54 hb'
  have hfold := foldl_explodeNeighborStep_spec cell.owner (getNeighborCoords r c)
    (setCellAt grid r c src) q hg1len (getNeighborCoords_nodup r c)
    (fun x hx => mem_getNeighborCoords_bounds hx)
  rw [hunfold]
  refine ⟨hfold.1, ?_, ?_, ?_, ?_⟩
  · rw [hfold.2.2.1 (r, c) (self_not_mem_getNeighborCoords r c), hset r c,
      if_pos ⟨rfl, rfl⟩]
  · intro x hx
    obtain ⟨t, ht_g1, ht_final⟩ := hfold.2.1 x hx
    refine ⟨t, ?_, ht_final⟩
    rw [hset x.1 x.2, if_neg] at ht_g1
    · exact ht_g1
    · rintro ⟨h1, h2⟩
      exact self_not_mem_getNeighborCoords r c
        (by rw [show (r, c) = x from Prod.ext h1.symm h2.symm]; exact hx)
  · intro y hy hyrc
    rw [hfold.2.2.1 y hy, hset y.1 y.2, if_neg]
    rintro ⟨h1, h2⟩
    exact hyrc (Prod.ext h1 h2)
  · rw [hfold.2.2.2, setCellAt, totalOrbs_set grid _ _ hidx, hcell_eq]
    simp only [hsrc]
    ring

/-! ### C1: the explosion step -/

/-- **C1.**  An explosion step applied to a cell over capacity removes
exactly `capacity + 1` units from it — the cell ends at 0 units and
unclaimed whenever the result is ≤ 0 — and every in-bounds orthogonal
neighbor takes the exploding cell's owner-at-explosion-time and gains
exactly one unit (unconditionally, even if that pushes the neighbor
over its capacity). -/
theorem processExplosion_step_correct (grid : List Cell) (q : List (Int × Int))
    (r c : Int) (cell : Cell) (h54 : grid.length = 54)
    (hcell : getCell grid r c = some cell) (hover : cell.capacity < cell.orbs) :
    (∃ src, getCell (explodeCell grid q r c cell).1 r c = some src ∧
      src.orbs = cell.orbs - (cell.capacity + 1) ∧
      (cell.orbs - (cell.capacity + 1) ≤ 0 → src.orbs = 0 ∧ src.owner = 0)) ∧
    (∀ x ∈ getNeighborCoords r c, ∃ t t1, getCell grid x.1 x.2 = some t ∧
      getCell (explodeCell grid q r c cell).1 x.1 x.2 = some t1 ∧
      t1.owner = cell.owner ∧ t1.orbs = t.orbs + 1) := by
  obtain ⟨-, hsrc, hnb, -, -⟩ := explodeCell_spec h54 hcell
  constructor
  · refine ⟨_, hsrc, rfl, ?_⟩
    intro hle
    have h0 : cell.orbs - (cell.capacity + 1) = 0 := by omega
    constructor
    · exact h0
    · show (if cell.orbs - (cell.capacity + 1) = 0 then 0 else cell.owner) = 0
      rw [if_pos h0]
  · intro x hx
    obtain ⟨t, ht, ht'⟩ := hnb x hx
    exact ⟨t, _, ht, ht', rfl, rfl⟩

/-- Witness for `processExplosion_step_correct`: exploding the corner
(0, 0) of `gridW` (2 orbs, capacity 1). -/
theorem processExplosion_step_correct_witness :
    (∃ src, getCell (explodeCell gridW [] 0 0 cellW).1 0 0 = some src ∧
      src.orbs = cellW.orbs - (cellW.capacity + 1) ∧
      (cellW.orbs - (cellW.capacity + 1) ≤ 0 → src.orbs = 0 ∧ src.owner = 0)) ∧
    (∀ x ∈ getNeighborCoords 0 0, ∃ t t1, getCell gridW x.1 x.2 = some t ∧
      getCell (explodeCell gridW [] 0 0 cellW).1 x.1 x.2 = some t1 ∧
      t1.owner = cellW.owner ∧ t1.orbs = t.orbs + 1) :=
  processExplosion_step_correct gridW [] 0 0 cellW (by decide) (by decide) (by decide)

/-! ### C2: mass conservation per explosion step -/

/-- **C2.**  On a well-formed grid an explosion step removes exactly
`capacity + 1` units from the source and hands one unit to each of
exactly `capacity + 1` in-bounds neighbors, so the total unit count of
the grid is unchanged. -/
theorem explosion_conserves_units (grid : List Cell) (q : List (Int × Int))
    (r c : Int) (cell : Cell) (hwf : WellFormed grid)
    (hcell : getCell grid r c = some cell) (hover : cell.capacity < cell.orbs) :
    ((getNeighborCoords r c).length : Int) = cell.capacity + 1 ∧
    totalOrbs (explodeCell grid q r c cell).1 = totalOrbs grid := by
  obtain ⟨h54, hfields⟩ := hwf
  have hb := getCell_bounds hcell
  have hb' : 0 ≤ r ∧ 0 ≤ c ∧ r < 9 ∧ c < 6 := by omega
  obtain ⟨hidx, hget⟩ := getCell_eq_getElem h54 hb'
  have hcell_eq : grid[(r * 6 + c).toNat] = cell := by
    rw [hget] at hcell
    exact Option.some.inj hcell
  obtain ⟨-, -, hcap, -, -⟩ := hfields (r * 6 + c).toNat hidx
  rw [hcell_eq] at hcap
  have hir : (((r * 6 + c).toNat / 6 : ℕ) : Int) = r := by omega
  have hic : (((r * 6 + c).toNat % 6 : ℕ) : Int) = c := by omega
  rw [hir, hic] at hcap
  have hlen : ((getNeighborCoords r c).length : Int) = (createCell 0 r c).capacity + 1 :=
    createCell_capacity_neighbors r c (by omega) (by omega) (by omega) (by omega)
  have hcap_nb : ((getNeighborCoords r c).length : Int) = cell.capacity + 1 := by
    rw [hlen, hcap]
  refine ⟨hcap_nb, ?_⟩
  obtain ⟨-, -, -, -, htot⟩ := explodeCell_spec h54 hcell
  rw [htot]
  omega

theorem grid0_wellFormed : WellFormed grid0 := createGrid_wellFormed pulses0

theorem gridW_wellFormed : WellFormed gridW :=
  @wellFormed_setCellAt grid0 0 0 cellW (createCell 0 0 0) grid0_wellFormed
    (by decide) (by decide) (by decide) (by decide) (by decide) (by decide)

/-- Witness for `explosion_conserves_units`: the same corner explosion
as for the step characterisation. -/
theorem explosion_conserves_units_witness :
    ((getNeighborCoords 0 0).length : Int) = cellW.capacity + 1 ∧
    totalOrbs (explodeCell gridW [] 0 0 cellW).1 = totalOrbs gridW :=
  explosion_conserves_units gridW [] 0 0 cellW gridW_wellFormed (by decide) (by decide)

/-! ### C10: the ownership invariant -/

theorem inv_setCellAt {g : List Cell} {r c : Int} {x : Cell} (hinv : Inv g)
    (hx : 0 ≤ x.orbs ∧ (x.owner ≠ 0 → 0 < x.orbs)) : Inv (setCellAt g r c x) := by
  intro cell hm
  rcases List.mem_or_eq_of_mem_set hm with hm' | rfl
  · exact hinv cell hm'
  · exact hx

theorem foldl_explodeNeighborStep_inv (p : Int) (L : List (Int × Int)) :
    ∀ (g : List Cell) (q : List (Int × Int)), Inv g →
      Inv (L.foldl (explodeNeighborStep p) (g, q)).1 := by
  induction L with
  | nil => exact fun g q h => h
  | cons x xs ih =>
    intro g q hinv
    rw [List.foldl_cons]
    cases hget : getCell g x.1 x.2 with
    | none =>
      have hstep : explodeNeighborStep p (g, q) x = (g, q) := by
        simp only [explodeNeighborStep, hget]
      rw [hstep]
      exact ih g q hinv
    | some t =>
      have hstep : explodeNeighborStep p (g, q) x =
          (setCellAt g x.1 x.2 { t with owner := p, orbs := t.orbs + 1 },
           if t.orbs + 1 > t.capacity ∧ ¬ q.contains x then q ++ [x] else q) := by
        simp only [explodeNeighborStep, hget]
      rw [hstep]
      refine ih _ _ (inv_setCellAt hinv ?_)
      have ht := hinv t (mem_of_getCell hget)
      refine ⟨?_, fun _ => ?_⟩
      · show (0 : Int) ≤ t.orbs + 1
        omega
      · show (0 : Int) < t.orbs + 1
        omega

/-- **C10.**  The ownership invariant (units never negative; an owned
cell always holds at least one unit): grid creation establishes it
(every cell starts at 0 units, unclaimed), and both the placement
update and every explosion step preserve it. -/
theorem ownership_invariant :
    (∀ pulses : ℕ → ℚ, Inv (createGrid pulses) ∧
      ∀ cell ∈ createGrid pulses, cell.orbs = 0 ∧ cell.owner = 0) ∧
    (∀ (grid : List Cell) (r c player : Int) (cell : Cell), Inv grid →
      getCell grid r c = some cell →
      Inv (setCellAt grid r c { cell with owner := player, orbs := cell.orbs + 1 })) ∧
    (∀ (grid : List Cell) (q : List (Int × Int)) (r c : Int) (cell : Cell),
      Inv grid → getCell grid r c = some cell → cell.capacity < cell.orbs →
      Inv (explodeCell grid q r c cell).1) := by
  refine ⟨?_, ?_, ?_⟩
  · intro pulses
    constructor
    · intro cell hm
      obtain ⟨h1, h2⟩ := createGrid_mem hm
      rw [h1]
      exact ⟨le_refl 0, fun h => absurd h2 h⟩
    · exact fun cell hm => createGrid_mem hm
  · intro grid r c player cell hinv hcell
    have hc := hinv cell (mem_of_getCell hcell)
    refine inv_setCellAt hinv ⟨?_, fun _ => ?_⟩
    · show (0 : Int) ≤ cell.orbs + 1
      omega
    · show (0 : Int) < cell.orbs + 1
      omega
  · intro grid q r c cell hinv hcell hover
    have hmem := hinv cell (mem_of_getCell hcell)
    refine foldl_explodeNeighborStep_inv cell.owner (getNeighborCoords r c) _ _
      (inv_setCellAt hinv ⟨?_, ?_⟩)
    · show (0 : Int) ≤ cell.orbs - (cell.capacity + 1)
      omega
    intro hown
    show (0 : Int) <
      ({ cell with orbs := cell.orbs - (cell.capacity + 1),
                   owner := if cell.orbs - (cell.capacity + 1) = 0 then 0
                            else cell.owner } : Cell).orbs
    by_cases h0 : cell.orbs - (cell.capacity + 1) = 0
    · exact absurd (by
        show (if cell.orbs - (cell.capacity + 1) = 0 then (0 : Int)
              else cell.owner) = 0
        rw [if_pos h0]) hown
    · show (0 : Int) < cell.orbs - (cell.capacity + 1)
      omega

/-- Witness for `ownership_invariant`: the invariant holds after the
corner explosion on `gridW` and after a placement on `grid0`. -/
theorem ownership_invariant_witness :
    Inv (setCellAt grid0 0 0
      { createCell 0 0 0 with owner := 1, orbs := (createCell 0 0 0).orbs + 1 }) ∧
    Inv (explodeCell gridW [] 0 0 cellW).1 :=
  ⟨ownership_invariant.2.1 grid0 0 0 1 (createCell 0 0 0)
      (by unfold Inv; decide) (by decide),
   ownership_invariant.2.2 gridW [] 0 0 cellW
      (by unfold Inv; decide) (by decide) (by decide)⟩

/-! ### C5: the cascade iteration bound -/

/-- **C5 counterexample.**  The safety bound in the code is
`MAX_EXPLOSIONS_PER_TURN = 500`, which is not "on the order of
10^3–10^4": it lies outside [1000, 10000]. -/
theorem max_explosions_not_thousands :
    MAX_EXPLOSIONS_PER_TURN = 500 ∧
    ¬(1000 ≤ MAX_EXPLOSIONS_PER_TURN ∧ MAX_EXPLOSIONS_PER_TURN ≤ 10000) := by
  decide

/-- **C5 (amended).**  Cascade resolution is guarded by a maximum
iteration count of 500 explosion steps per placement; when the counter
reaches the bound the loop stops (totally, no crash) and returns the
grid in its current — possibly still unstable — form, with the queue
dropped. -/
theorem max_explosions_bound_behavior :
    MAX_EXPLOSIONS_PER_TURN = 500 ∧
    ∀ (g : List Cell) (q : List (Int × Int)), runCascadeAux 0 g q = (g, []) :=
  ⟨rfl, fun _ _ => rfl⟩

/-! ### C9: deterministic cascade resolution -/

/-- **C9.**  Cascade resolution is a pure function of the grid and the
placement: two runs from equal grids with the same validated placement
produce the identical exploded-cell sequence and final grid; and each
loop iteration processes exactly the single queue-head cell (the fixed
FIFO order), exploding it when it is over capacity. -/
theorem cascade_deterministic :
    (∀ (g1 g2 : List Cell) (r c player : Int), g1 = g2 →
      validateMove g1 r c player = true →
      executeMoveResolve g1 r c player = executeMoveResolve g2 r c player) ∧
    (∀ (fuel : ℕ) (g : List Cell) (r c : Int) (rest : List (Int × Int)) (cell : Cell),
      getCell g r c = some cell → cell.capacity < cell.orbs →
      runCascadeAux (fuel + 1) g ((r, c) :: rest) =
        ((runCascadeAux fuel (explodeCell g rest r c cell).1
            (explodeCell g rest r c cell).2).1,
         (r, c) :: (runCascadeAux fuel (explodeCell g rest r c cell).1
            (explodeCell g rest r c cell).2).2)) := by
  constructor
  · rintro g1 g2 r c player rfl -
    rfl
  · intro fuel g r c rest cell hget hover
    simp only [runCascadeAux, hget]
    rw [if_neg (by omega)]

/-- Witness for `cascade_deterministic`: the placement (0, 0) by
player 1 on `gridW` and the single-step unfolding of the corner
explosion. -/
theorem cascade_deterministic_witness :
    executeMoveResolve gridW 0 0 1 = executeMoveResolve gridW 0 0 1 ∧
    runCascadeAux 1 gridW [(0, 0)] =
      ((runCascadeAux 0 (explodeCell gridW [] 0 0 cellW).1
          (explodeCell gridW [] 0 0 cellW).2).1,
       (0, 0) :: (runCascadeAux 0 (explodeCell gridW [] 0 0 cellW).1
          (explodeCell gridW [] 0 0 cellW).2).2) :=
  ⟨cascade_deterministic.1 gridW gridW 0 0 1 rfl (by decide),
   cascade_deterministic.2 0 gridW 0 0 [] cellW (by decide) (by decide)⟩

/-! ### C8: the move selector -/

theorem insertDesc_perm (x : Cell × ℚ) (l : List (Cell × ℚ)) :
    (insertDesc x l).Perm (x :: l) := by
  induction l with
  | nil => exact List.Perm.refl _
  | cons y ys ih =>
    unfold insertDesc
    split
    · exact List.Perm.refl _
    · exact (ih.cons y).trans (List.Perm.swap x y ys)

theorem sortDesc_perm (l : List (Cell × ℚ)) : (sortDesc l).Perm l := by
  induction l with
  | nil => exact List.Perm.refl _
  | cons x xs ih => exact (insertDesc_perm x (sortDesc xs)).trans (ih.cons x)

/-- A grid member satisfying the ownership test is a valid placement
target at its own coordinates. -/
theorem validateMove_of_mem {grid : List Cell} {cell : Cell} {player : Int}
    (hwf : WellFormed grid) (hm : cell ∈ grid) (hl : legalB player cell = true) :
    validateMove grid cell.r cell.c player = true := by
  have hget := getCell_of_mem hwf hm
  unfold validateMove
  rw [hget]
  show (if cell.owner ≠ 0 ∧ cell.owner ≠ player then false else true) = true
  rw [if_neg]
  simp only [legalB, decide_eq_true_eq] at hl
  rintro ⟨h1, h2⟩
  rcases hl with h | h
  · exact h1 h
  · exact h2 h

/-- In the non-empty case `aiFindBestMove` returns the coordinates of
some member of the valid-move set. -/
theorem aiFindBestMove_pos (grid : List Cell) (player : Int) (noise : ℕ → ℚ)
    (pick : ℕ) (h0 : ¬(grid.filter (legalB player)).length = 0) :
    ∃ m ∈ grid.filter (legalB player),
      aiFindBestMove grid player noise pick = some (m.r, m.c) := by
  simp only [aiFindBestMove]
  rw [if_neg h0]
  have hsl : ((grid.filter (legalB player)).enum.map
      (fun ic => (ic.2, aiScoreMove grid ic.2 player (noise ic.1)))).length =
      (grid.filter (legalB player)).length := by
    simp
  have hsortl : (sortDesc ((grid.filter (legalB player)).enum.map
      (fun ic => (ic.2, aiScoreMove grid ic.2 player (noise ic.1))))).length =
      (grid.filter (legalB player)).length := by
    rw [(sortDesc_perm _).length_eq, hsl]
  set sorted := sortDesc ((grid.filter (legalB player)).enum.map
    (fun ic => (ic.2, aiScoreMove grid ic.2 player (noise ic.1)))) with hsorted
  have htopl : (sorted.take (min 3 sorted.length)).length = min 3 sorted.length := by
    rw [List.length_take]
    omega
  have htpos : 0 < (sorted.take (min 3 sorted.length)).length := by
    rw [htopl]
    omega
  have hlt : pick % (sorted.take (min 3 sorted.length)).length <
      (sorted.take (min 3 sorted.length)).length := Nat.mod_lt _ htpos
  rw [List.getElem?_eq_getElem hlt]
  have hmem_top := List.getElem_mem hlt
  have hmem_sorted : (sorted.take (min 3 sorted.length))[pick %
      (sorted.take (min 3 sorted.length)).length] ∈ sorted :=
    List.Sublist.mem hmem_top (List.take_sublist _ _)
  have hmem_scored := (sortDesc_perm _).mem_iff.mp hmem_sorted
  obtain ⟨ic, hic, heq⟩ := List.mem_map.mp hmem_scored
  have hic' : (ic.1, ic.2) ∈ (grid.filter (legalB player)).enum := by
    rwa [Prod.mk.eta]
  obtain ⟨hilt, hx⟩ := List.mem_enum hic'
  refine ⟨ic.2, by rw [hx]; exact List.getElem_mem hilt, ?_⟩
  show some (((sorted.take (min 3 sorted.length))[pick %
      (sorted.take (min 3 sorted.length)).length]).1.r,
    ((sorted.take (min 3 sorted.length))[pick %
      (sorted.take (min 3 sorted.length)).length]).1.c) = some (ic.2.r, ic.2.c)
  rw [← heq]

/-- Well-formedness survives any per-cell map that preserves the
position-derived fields. -/
theorem wellFormed_map {grid : List Cell} (hwf : WellFormed grid) (f : Cell → Cell)
    (hf : ∀ cell, (f cell).r = cell.r ∧ (f cell).c = cell.c ∧
      (f cell).capacity = cell.capacity ∧
      (f cell).neighborCount = cell.neighborCount ∧ (f cell).type = cell.type) :
    WellFormed (grid.map f) := by
  obtain ⟨h54, hfields⟩ := hwf
  refine ⟨by simpa using h54, ?_⟩
  intro i h
  have hi : i < grid.length := by simpa using h
  rw [List.getElem_map]
  obtain ⟨a1, a2, a3, a4, a5⟩ := hfields i hi
  obtain ⟨b1, b2, b3, b4, b5⟩ := hf grid[i]
  exact ⟨by rw [b1, a1], by rw [b2, a2], by rw [b3, a3], by rw [b4, a4],
    by rw [b5, a5]⟩

theorem gridFull_wellFormed : WellFormed gridFull := by
  refine wellFormed_map grid0_wellFormed fillOwn ?_
  intro cell
  unfold fillOwn
  split
  · exact ⟨rfl, rfl, rfl, rfl, rfl⟩
  · exact ⟨rfl, rfl, rfl, rfl, rfl⟩

/-- **C8.**  `aiFindBestMove` returns `none` exactly when no cell is
unclaimed or owned by the competitor; any coordinate it returns (for
any score noise and any random pick) passes `validateMove` for that
competitor; and with exactly one legal cell it returns that cell. -/
theorem aiFindBestMove_correct (grid : List Cell) (player : Int) (noise : ℕ → ℚ)
    (pick : ℕ) (hwf : WellFormed grid) :
    (aiFindBestMove grid player noise pick = none ↔
      ∀ cell ∈ grid, ¬(cell.owner = 0 ∨ cell.owner = player)) ∧
    (∀ r c, aiFindBestMove grid player noise pick = some (r, c) →
      validateMove grid r c player = true) ∧
    (∀ cell, grid.filter (legalB player) = [cell] →
      aiFindBestMove grid player noise pick = some (cell.r, cell.c)) := by
  by_cases h0 : (grid.filter (legalB player)).length = 0
  · have hVnil : grid.filter (legalB player) = [] := List.length_eq_zero.mp h0
    have hres : aiFindBestMove grid player noise pick = none := by
      simp only [aiFindBestMove]
      rw [if_pos h0]
    refine ⟨?_, ?_, ?_⟩
    · rw [hres]
      constructor
      · intro _ cell hm
        have := List.filter_eq_nil_iff.mp hVnil cell hm
        simpa [legalB] using this
      · intro _
        rfl
    · intro r c hsome
      rw [hres] at hsome
      exact Option.noConfusion hsome
    · intro cell hcell
      rw [hcell] at hVnil
      exact List.noConfusion hVnil
  · obtain ⟨m, hm, hres⟩ := aiFindBestMove_pos grid player noise pick h0
    obtain ⟨hm_grid, hm_legal⟩ := List.mem_filter.mp hm
    refine ⟨?_, ?_, ?_⟩
    · rw [hres]
      constructor
      · intro hcontra
        exact Option.noConfusion hcontra
      · intro hall
        have hcontra := hall m hm_grid
        simp only [legalB, decide_eq_true_eq] at hm_legal
        exact absurd hm_legal hcontra
    · intro r c hsome
      rw [hres] at hsome
      have : (m.r, m.c) = (r, c) := Option.some.inj hsome
      obtain ⟨h1, h2⟩ := Prod.mk.injEq .. |>.mp this
      rw [← h1, ← h2]
      exact validateMove_of_mem hwf hm_grid hm_legal
    · intro cell hcell
      rw [hcell] at hm
      have : m = cell := by simpa using hm
      rw [hres, this]

/-- Witness for `aiFindBestMove_correct`: on `gridFull` (every cell
owned by player 1 except the free corner (0, 0)) the selector for
player 2 must pick exactly (0, 0). -/
theorem aiFindBestMove_correct_witness :
    aiFindBestMove gridFull 2 pulses0 7 = some (cellFree.r, cellFree.c) :=
  (aiFindBestMove_correct gridFull 2 pulses0 7 gridFull_wellFormed).2.2
    cellFree (by decide)

end ChainReaction
